import Mathlib

/-!
Shallow embedding of the liuyao Telegram bot (src/liuyao.py).

The bot forwards a user question to a chat-completion backend and streams the
answer back as an incrementally edited chat message, gated by a per-user daily
quota.  External collaborators (the bot transport, the chat backend, the user
and project service) are modelled as inputs: their responses for one handler
invocation are packaged in an Env value, the stream is a list of events plus a
flag saying whether the iterator raises after delivering them, and the success
of each message-edit attempt is an oracle indexed by attempt number.  All
outbound operations and backend calls are recorded in order in a list of
Effect values.
-/

namespace Liuyao

/-- One transcript entry appended to the local messages list in
handle_message: a role tag and a content string. -/
structure Msg where
  role : String
  content : String
deriving DecidableEq, Repr

/-- Events delivered by the chat-completion stream: a
CONVERSATION_MESSAGE_DELTA carrying a content fragment, a
CONVERSATION_CHAT_COMPLETED carrying usage statistics, or any other event
type. -/
inductive StreamEvent where
  | delta (content : String)
  | completed (tokenCount : Nat)
  | other
deriving DecidableEq, Repr

/-- Outbound operations and backend calls issued by the handlers, in order:
reply_text, reply_photo, edit_text on the streamed message (with the success
of the attempt), create_project, the chat-completion stream call, and
update_project_messages. -/
inductive Effect where
  | sendText (text : String)
  | sendPhoto (url : String)
  | editMsg (text : String) (ok : Bool)
  | createProj (userId : Nat) (question : String)
  | streamCall (sessionId : Nat) (question : String)
  | updateProj (projectId : Nat) (msgs : List Msg)
deriving DecidableEq, Repr

/-- The per-conversation context.user_data dictionary.  Each cached key is
optional because a fresh context holds none of them; reading an absent key
with square brackets raises KeyError, which the model surfaces as an Outcome.
waiting_for_question is read with .get, so an absent key behaves as false. -/
structure UserData where
  daily_limit : Option Int := none
  daily_count : Option Int := none
  last_date : Option String := none
  user_id : Option Nat := none
  waiting_for_question : Bool := false
deriving DecidableEq, Repr

/-- Responses of the external user service for one handler invocation: the
resolved user id (none when get_or_create_user fails), the daily limit and
used count fetched for today, and the date string for today in UTC+8. -/
structure Env where
  user : Option Nat
  daily_limit : Int
  used_count : Int
  today : String
deriving DecidableEq, Repr

/-- How a handler invocation ends: normally, or with an uncaught KeyError
raised by reading an absent user_data key. -/
inductive Outcome where
  | ok
  | raisedKeyError
deriving DecidableEq, Repr

/-- Membership record returned by get_user_membership_info. -/
structure MembershipInfo where
  tier_name : String
  description : String
  start_time : String
  end_time : String
deriving DecidableEq, Repr

/-- Reply sent when the daily quota is exhausted. -/
def exhaustedMsg : String := "今日算卦次数已用完，请明日再来。"

/-- Prompt sent by the start command when quota remains. -/
def promptMsg : String := "请输入你所求之事："

/-- Reply sent when create_project fails. -/
def sysErrMsg : String := "系统错误，请稍后再试。"

/-- Reply sent when stream consumption raises. -/
def failMsg : String := "抱歉，算卦系统暂时遇到问题，请稍后再试。"

/-- Reply sent to a text message arriving while not awaiting a question. -/
def idleMsg : String := "请先发送 /start 开始算卦流程。"

/-- Fixed marker opening a status fragment. -/
def startMarker : String := "开始起卦"

/-- initialize_user_data: resolve or create the user; on failure return with
the cached state untouched; otherwise cache limit, remaining count, date and
user id in user_data. -/
def initialize_user_data (env : Env) (ud : UserData) : UserData :=
  match env.user with
  | none => ud
  | some uid =>
    { ud with
      daily_limit := some env.daily_limit
      daily_count := some (env.daily_limit - env.used_count)
      last_date := some env.today
      user_id := some uid }

/-- The start command handler: refresh user data, reply with the exhaustion
notice when no count remains, otherwise prompt for the question and set
waiting_for_question. -/
def start (env : Env) (ud : UserData) : UserData × List Effect × Outcome :=
  let ud1 := initialize_user_data env ud
  match ud1.daily_count with
  | none => (ud1, [], Outcome.raisedKeyError)
  | some c =>
    if c ≤ 0 then (ud1, [Effect.sendText exhaustedMsg], Outcome.ok)
    else ({ ud1 with waiting_for_question := true },
          [Effect.sendText promptMsg], Outcome.ok)

/-- Membership summary rendered by profile; fmtDate stands for the external
datetime conversion to a UTC+8 date string. -/
def profileMemberText (firstName : String) (mi : MembershipInfo)
    (fmtDate : String → String) (dc dl : Int) : String :=
  "用户：" ++ firstName ++ "\n会员等级：" ++ mi.tier_name ++
  "\n会员说明：" ++ mi.description ++
  "\n会员有效期：" ++ fmtDate mi.start_time ++ " 至 " ++ fmtDate mi.end_time ++
  "\n今日剩余算卦次数：" ++ toString dc ++
  "\n每日限额：" ++ toString dl ++ "次"

/-- Free-tier summary rendered by profile. -/
def profileFreeText (firstName : String) (dc dl : Int) : String :=
  "用户：" ++ firstName ++ "\n会员等级：免费用户" ++
  "\n今日剩余算卦次数：" ++ toString dc ++
  "\n每日限额：" ++ toString dl ++ "次"

/-- The profile command handler: refresh user data, read the cached quota keys
and user id, fetch membership info and render one of the two summaries. -/
def profile (env : Env) (membership : Option MembershipInfo)
    (fmtDate : String → String) (firstName : String) (ud : UserData) :
    UserData × List Effect × Outcome :=
  let ud1 := initialize_user_data env ud
  match ud1.daily_count with
  | none => (ud1, [], Outcome.raisedKeyError)
  | some dc =>
    match ud1.daily_limit with
    | none => (ud1, [], Outcome.raisedKeyError)
    | some dl =>
      match ud1.user_id with
      | none => (ud1, [], Outcome.raisedKeyError)
      | some _ =>
        match membership with
        | some mi =>
          (ud1, [Effect.sendText (profileMemberText firstName mi fmtDate dc dl)],
           Outcome.ok)
        | none =>
          (ud1, [Effect.sendText (profileFreeText firstName dc dl)], Outcome.ok)

/-- The eight characters of the line-break marker replaced in text_buffer. -/
def brMarker : List Char := ['<', 'b', 'r', '>', '<', 'b', 'r', '>']

/-- Whether the line-break marker occurs somewhere in the character list. -/
def hasBr : List Char → Bool
  | [] => false
  | c :: rest => brMarker.isPrefixOf (c :: rest) || hasBr rest

/-- Python str.replace for the fixed line-break marker, fueled so that the
recursion is structural: each leftmost non-overlapping occurrence is replaced
by one newline, scanning left to right.  One unit of fuel is spent per
occurrence or per character, so fuel equal to the list length always
suffices. -/
def replaceBrAux : Nat → List Char → List Char
  | _, [] => []
  | 0, l => l
  | fuel + 1, c :: rest =>
    if brMarker.isPrefixOf (c :: rest) then '\n' :: replaceBrAux fuel (rest.drop 7)
    else c :: replaceBrAux fuel rest

/-- Python str.replace of the line-break marker by a newline. -/
def replaceBrList (l : List Char) : List Char := replaceBrAux l.length l

/-- text_buffer.replace applied in the threshold edit branch. -/
def replaceBr (s : String) : String := String.mk (replaceBrList s.data)

/-- The two characters of the image-link separator split on by the code. -/
def imgSep : List Char := [']', '(']

/-- Whether the image-link separator occurs somewhere in the character list;
this models the Python membership test of the separator in content. -/
def hasSep : List Char → Bool
  | [] => false
  | c :: rest => imgSep.isPrefixOf (c :: rest) || hasSep rest

/-- Python content.split on the image-link separator, fueled so that the
recursion is structural: pieces between leftmost non-overlapping occurrences
of the separator, in order.  Fuel equal to the list length always suffices. -/
def pySplitAux : Nat → List Char → List (List Char)
  | _, [] => [[]]
  | 0, l => [l]
  | fuel + 1, c :: rest =>
    if imgSep.isPrefixOf (c :: rest) then [] :: pySplitAux fuel (rest.drop 1)
    else (c :: (pySplitAux fuel rest).headD []) :: (pySplitAux fuel rest).tail

/-- Python content.split on the image-link separator. -/
def pySplitSep (l : List Char) : List (List Char) := pySplitAux l.length l

/-- Modelled from the spec: the characters after the first occurrence of the
image-link separator, used to state the URL the spec promises (the substring
between the separator and the trailing close parenthesis). -/
def afterFirstSep : List Char → List Char
  | [] => []
  | c :: rest =>
    if imgSep.isPrefixOf (c :: rest) then rest.drop 1 else afterFirstSep rest

/-- Modelled from the spec: the URL the spec promises for an image fragment,
the substring between the first image-link separator and the trailing close
parenthesis. -/
def specImgUrl (c : String) : String :=
  String.mk ((afterFirstSep c.data).dropLast)

/-- The URL the code extracts: second piece of the split with the final
character removed. -/
def imgUrlOf (c : String) : String :=
  String.mk (((pySplitSep c.data).getD 1 []).dropLast)

/-- The image-fragment test of the code: starts with the image opener,
contains the separator, ends with a close parenthesis. -/
def imageCond (c : String) : Bool :=
  "![".data.isPrefixOf c.data && hasSep c.data && ")".data.isSuffixOf c.data

/-- The status-fragment test of the code: content starts with the fixed
marker. -/
def statusCond (c : String) : Bool :=
  startMarker.data.isPrefixOf c.data

/-- A plain fragment: neither an image fragment nor a status fragment. -/
def plainFrag (c : String) : Bool :=
  !imageCond c && !statusCond c

/-- Local state of the streaming loop in handle_message: the accumulated
transcript, the two text buffers, the streamed chat message (none before the
initial send, afterwards the text it currently displays), and the number of
edit attempts made so far (the index into the edit-success oracle). -/
structure LoopState where
  messages : List Msg
  text_buffer : String
  content_buffer : String
  message : Option String
  editAttempts : Nat
deriving DecidableEq, Repr

/-- Loop state at the top of the try block. -/
def initState : LoopState :=
  { messages := [], text_buffer := "", content_buffer := "",
    message := none, editAttempts := 0 }

/-- The edit threshold BUFFER_SIZE. -/
def BUFFER_SIZE : Nat := 30

/-- The fixed prefix of the initial send, echoing the question. -/
def qHeader (question : String) : String :=
  "您所问的事：" ++ question ++ "\n\n卦象解析：\n"

/-- One iteration of the event loop of handle_message: image fragments send a
photo and are recorded; status fragments send the fixed marker and are
recorded; plain fragments accumulate in content_buffer, trigger the initial
send while no message exists, and otherwise trigger an in-place edit once the
buffer reaches the threshold; every other event type is ignored. -/
def processEvent (question : String) (editOk : Nat → Bool) (st : LoopState) :
    StreamEvent → LoopState × List Effect
  | StreamEvent.delta content =>
    if imageCond content then
      ({ st with messages := st.messages ++ [⟨"assistant", content⟩] },
       [Effect.sendPhoto (imgUrlOf content)])
    else if statusCond content then
      ({ st with messages := st.messages ++ [⟨"assistant", content⟩] },
       [Effect.sendText startMarker])
    else
      let cb := st.content_buffer ++ content
      match st.message with
      | none =>
        let t := qHeader question ++ cb
        ({ st with content_buffer := cb, message := some t, text_buffer := t },
         [Effect.sendText t])
      | some disp =>
        if BUFFER_SIZE ≤ cb.length then
          let tb := replaceBr (st.text_buffer ++ cb)
          let ok := editOk st.editAttempts
          ({ st with
             content_buffer := ""
             text_buffer := tb
             message := some (if ok then tb else disp)
             editAttempts := st.editAttempts + 1 },
           [Effect.editMsg tb ok])
        else
          ({ st with content_buffer := cb }, [])
  | StreamEvent.completed _ => (st, [])
  | StreamEvent.other => (st, [])

/-- The event loop of handle_message run from a given loop state over the
delivered events, returning the final loop state and the effects issued. -/
def runFrom (question : String) (editOk : Nat → Bool) (st : LoopState) :
    List StreamEvent → LoopState × List Effect
  | [] => (st, [])
  | ev :: rest =>
    ((runFrom question editOk (processEvent question editOk st ev).1 rest).1,
     (processEvent question editOk st ev).2 ++
     (runFrom question editOk (processEvent question editOk st ev).1 rest).2)

/-- The code after the loop: when content remains buffered and a message was
sent, append the residue to text_buffer without marker replacement, record it
as the final transcript entry, attempt one last edit, and call
update_project_messages only when that edit succeeded. -/
def finalBlock (pid : Nat) (editOk : Nat → Bool) (st : LoopState) :
    LoopState × List Effect :=
  if st.content_buffer = "" then (st, [])
  else
    match st.message with
    | none => (st, [])
    | some disp =>
      if editOk st.editAttempts then
        ({ st with
           text_buffer := st.text_buffer ++ st.content_buffer
           messages := st.messages ++
             [⟨"assistant", st.text_buffer ++ st.content_buffer⟩]
           message := some (st.text_buffer ++ st.content_buffer)
           editAttempts := st.editAttempts + 1 },
         [Effect.editMsg (st.text_buffer ++ st.content_buffer) true,
          Effect.updateProj pid (st.messages ++
            [⟨"assistant", st.text_buffer ++ st.content_buffer⟩])])
      else
        ({ st with
           text_buffer := st.text_buffer ++ st.content_buffer
           messages := st.messages ++
             [⟨"assistant", st.text_buffer ++ st.content_buffer⟩]
           message := some disp
           editAttempts := st.editAttempts + 1 },
         [Effect.editMsg (st.text_buffer ++ st.content_buffer) false])

/-- The message handler.  While not awaiting a question it only replies with
the instruction to use the start command.  Otherwise it re-refreshes the
quota, replies and returns when the refreshed count is exhausted, consumes the
message as the question, creates a project, opens the chat-completion stream,
runs the event loop, and either finishes with the final flush and update or,
when the stream raised, with the single generic failure reply. -/
def handle_message (env : Env) (msgText : String) (createRes : Option Nat)
    (events : List StreamEvent) (streamRaises : Bool) (editOk : Nat → Bool)
    (ud : UserData) : UserData × List Effect × Outcome :=
  if ud.waiting_for_question then
    let ud1 := initialize_user_data env ud
    match ud1.daily_count with
    | none => (ud1, [], Outcome.raisedKeyError)
    | some c =>
      if c ≤ 0 then (ud1, [Effect.sendText exhaustedMsg], Outcome.ok)
      else
        let ud2 := { ud1 with waiting_for_question := false }
        match ud2.user_id with
        | none => (ud2, [], Outcome.raisedKeyError)
        | some uid =>
          match createRes with
          | none =>
            (ud2, [Effect.createProj uid msgText, Effect.sendText sysErrMsg],
             Outcome.ok)
          | some pid =>
            let r := runFrom msgText editOk initState events
            if streamRaises then
              (ud2, Effect.createProj uid msgText ::
                    Effect.streamCall pid msgText ::
                    (r.2 ++ [Effect.sendText failMsg]), Outcome.ok)
            else
              let f := finalBlock pid editOk r.1
              (ud2, Effect.createProj uid msgText ::
                    Effect.streamCall pid msgText :: (r.2 ++ f.2), Outcome.ok)
  else
    (ud, [Effect.sendText idleMsg], Outcome.ok)

/-- Effects of the streaming part of one question: the loop effects followed
by the final-flush effects. -/
def streamEffects (pid : Nat) (question : String) (editOk : Nat → Bool)
    (events : List StreamEvent) : List Effect :=
  (runFrom question editOk initState events).2 ++
  (finalBlock pid editOk (runFrom question editOk initState events).1).2

/-- The text displayed by the streamed chat message after the whole run, when
one was sent. -/
def finalDisplayed (pid : Nat) (question : String) (editOk : Nat → Bool)
    (events : List StreamEvent) : Option String :=
  (finalBlock pid editOk (runFrom question editOk initState events).1).1.message

/-- Contents of the message-delta events of a stream, in order. -/
def deltaContents : List StreamEvent → List String
  | [] => []
  | StreamEvent.delta c :: rest => c :: deltaContents rest
  | _ :: rest => deltaContents rest

/-- Concatenation of a list of strings. -/
def concatS : List String → String
  | [] => ""
  | s :: rest => s ++ concatS rest

/-- Total character count of a list of strings. -/
def totalLen : List String → Nat
  | [] => 0
  | s :: rest => s.length + totalLen rest

/-- Whether an effect is a message edit. -/
def isEdit : Effect → Bool
  | Effect.editMsg _ _ => true
  | _ => false

/-- Number of edit operations in an effect list. -/
def countEdits (l : List Effect) : Nat := (l.filter isEdit).length

/-- Number of occurrences of one effect in an effect list. -/
def countEff (e : Effect) : List Effect → Nat
  | [] => 0
  | x :: rest => (if x = e then 1 else 0) + countEff e rest

/-- Whether an effect is an update_project_messages call. -/
def isUpdate : Effect → Bool
  | Effect.updateProj _ _ => true
  | _ => false

/-- Number of update_project_messages calls in an effect list. -/
def countUpdates (l : List Effect) : Nat := (l.filter isUpdate).length

/-- Shape of every effect the event loop can issue: a text send that is
either the fixed status marker or the header-prefixed initial send, a photo
send, or an edit. -/
def loopShape : Effect → Prop
  | Effect.sendText t => t = startMarker ∨ ∃ q s, t = qHeader q ++ s
  | Effect.sendPhoto _ => True
  | Effect.editMsg _ _ => True
  | _ => False

/-- A status fragment is never an image fragment: its first character is the
status-marker opener, not the image opener. -/
lemma statusCond_imageCond_false (c : String) (h : statusCond c = true) :
    imageCond c = false := by
  unfold statusCond startMarker at h
  obtain ⟨t, ht⟩ := List.isPrefixOf_iff_prefix.mp h
  unfold imageCond
  have hd : c.data = '开' :: '始' :: '起' :: '卦' :: t := by
    rw [← ht]; rfl
  have hb : "![".data = ['!', '['] := rfl
  rw [hd, hb]
  simp [List.isPrefixOf]

/-- C10: every stream event other than a message delta, including the
chat-completed event carrying the usage statistics, is ignored by the event
loop: it issues no outbound operation, records no transcript entry, and leaves
the loop state with both buffers unchanged. -/
theorem C10_nondelta_events_ignored (question : String) (editOk : Nat → Bool)
    (st : LoopState) (n : Nat) :
    processEvent question editOk st (StreamEvent.completed n) = (st, []) ∧
    processEvent question editOk st StreamEvent.other = (st, []) :=
  ⟨rfl, rfl⟩

/-- C1: while awaiting a question, when the refreshed remaining quota is not
positive the handler only replies with the exhaustion notice: the message is
not accepted as a question, no project is created and no chat-completion
stream call is issued. -/
theorem C1_quota_gate_blocks_question (env : Env) (msgText : String)
    (createRes : Option Nat) (events : List StreamEvent) (streamRaises : Bool)
    (editOk : Nat → Bool) (ud : UserData) (u : Nat)
    (hw : ud.waiting_for_question = true)
    (hu : env.user = some u)
    (hq : env.daily_limit - env.used_count ≤ 0) :
    (handle_message env msgText createRes events streamRaises editOk ud).2.1 =
      [Effect.sendText exhaustedMsg] ∧
    (∀ uid q, Effect.createProj uid q ∉
      (handle_message env msgText createRes events streamRaises editOk ud).2.1) ∧
    (∀ pid q, Effect.streamCall pid q ∉
      (handle_message env msgText createRes events streamRaises editOk ud).2.1) := by
  unfold handle_message initialize_user_data
  rw [hu]
  simp [hw, hq]

/-- Witness for C1: a concrete exhausted-quota input. -/
theorem C1_quota_gate_blocks_question_witness :
    (({ waiting_for_question := true } : UserData)).waiting_for_question = true ∧
    (({ user := some 1, daily_limit := 2, used_count := 2, today := "d" } : Env)).user
      = some 1 ∧
    ((2 : Int) - 2 ≤ 0) ∧
    (handle_message { user := some 1, daily_limit := 2, used_count := 2, today := "d" }
      "问" none [] false (fun _ => true) { waiting_for_question := true }).2.1 =
      [Effect.sendText exhaustedMsg] :=
  ⟨rfl, rfl, by decide,
   (C1_quota_gate_blocks_question _ "问" none [] false (fun _ => true) _ 1 rfl rfl
     (by decide)).1⟩

/-- C2 fails on the code: at an exhausted re-refresh the handler replies with
the exhaustion notice but leaves waiting_for_question true, so the session is
not reverted to idle. -/
theorem C2_counterexample :
    (handle_message { user := some 1, daily_limit := 0, used_count := 0, today := "d" }
       "问" none [] false (fun _ => true) { waiting_for_question := true }).2.1 =
      [Effect.sendText exhaustedMsg] ∧
    (handle_message { user := some 1, daily_limit := 0, used_count := 0, today := "d" }
       "问" none [] false (fun _ => true)
       { waiting_for_question := true }).1.waiting_for_question = true :=
  ⟨rfl, rfl⟩

/-- C2 amended: when a text message arrives while awaiting a question and the
re-refreshed quota is exhausted, the handler replies with the exhaustion
notice and returns without consuming the message as a question (no project is
created and no stream call is issued), but the session is not reverted to
idle: waiting_for_question remains true because the handler returns before the
line that clears it. -/
theorem C2_amended_exhausted_keeps_waiting (env : Env) (msgText : String)
    (createRes : Option Nat) (events : List StreamEvent) (streamRaises : Bool)
    (editOk : Nat → Bool) (ud : UserData) (u : Nat)
    (hw : ud.waiting_for_question = true)
    (hu : env.user = some u)
    (hq : env.daily_limit - env.used_count ≤ 0) :
    (handle_message env msgText createRes events streamRaises editOk ud).2.1 =
      [Effect.sendText exhaustedMsg] ∧
    (handle_message env msgText createRes events streamRaises
      editOk ud).1.waiting_for_question = true ∧
    (∀ uid q, Effect.createProj uid q ∉
      (handle_message env msgText createRes events streamRaises editOk ud).2.1) := by
  unfold handle_message initialize_user_data
  rw [hu]
  simp [hw, hq]

/-- Witness for the amended C2 at a concrete exhausted-quota input. -/
theorem C2_amended_exhausted_keeps_waiting_witness :
    (({ waiting_for_question := true } : UserData)).waiting_for_question = true ∧
    (({ user := some 3, daily_limit := 1, used_count := 4, today := "d" } : Env)).user
      = some 3 ∧
    ((1 : Int) - 4 ≤ 0) ∧
    (handle_message { user := some 3, daily_limit := 1, used_count := 4, today := "d" }
      "事" none [] false (fun _ => true)
      { waiting_for_question := true }).1.waiting_for_question = true :=
  ⟨rfl, rfl, by decide,
   (C2_amended_exhausted_keeps_waiting _ "事" none [] false (fun _ => true) _ 3 rfl rfl
     (by decide)).2.1⟩

/-- C9 fails on the code: when user resolution fails on a fresh context, the
start handler sends no reply at all (in particular no generic system-error
reply); it raises an uncaught KeyError reading the absent daily_count key. -/
theorem C9_counterexample :
    start { user := none, daily_limit := 5, used_count := 0, today := "d" }
      ({} : UserData) = ({}, [], Outcome.raisedKeyError) ∧
    (start { user := none, daily_limit := 5, used_count := 0, today := "d" }
      ({} : UserData)).2.1 ≠ [Effect.sendText sysErrMsg] :=
  ⟨rfl, by decide⟩

/-- C9 amended: when user resolution fails, initialize_user_data establishes
no partial session state (the context is returned unchanged), but the flow
does not abort with a generic system-error reply: on a context without a
cached daily_count, each gated entry point (start command, question handling,
profile view) raises an uncaught KeyError reading that key and sends nothing
to the user. -/
theorem C9_amended_resolution_failure (env : Env) (ud : UserData)
    (membership : Option MembershipInfo) (fmtDate : String → String)
    (firstName msgText : String) (createRes : Option Nat)
    (events : List StreamEvent) (streamRaises : Bool) (editOk : Nat → Bool)
    (hu : env.user = none) (hdc : ud.daily_count = none)
    (hw : ud.waiting_for_question = true) :
    initialize_user_data env ud = ud ∧
    start env ud = (ud, [], Outcome.raisedKeyError) ∧
    handle_message env msgText createRes events streamRaises editOk ud =
      (ud, [], Outcome.raisedKeyError) ∧
    profile env membership fmtDate firstName ud =
      (ud, [], Outcome.raisedKeyError) := by
  have hi : initialize_user_data env ud = ud := by
    unfold initialize_user_data; rw [hu]
  refine ⟨hi, ?_, ?_, ?_⟩
  · unfold start
    simp [hi, hdc]
  · unfold handle_message
    simp [hw, hi, hdc]
  · unfold profile
    simp [hi, hdc]

/-- Witness for the amended C9 at a concrete failing-resolution input. -/
theorem C9_amended_resolution_failure_witness :
    (({ user := none, daily_limit := 5, used_count := 0, today := "d" } : Env)).user
      = none ∧
    (({ waiting_for_question := true } : UserData)).daily_count = none ∧
    (({ waiting_for_question := true } : UserData)).waiting_for_question = true ∧
    start { user := none, daily_limit := 5, used_count := 0, today := "d" }
      ({ waiting_for_question := true } : UserData) =
      ({ waiting_for_question := true }, [], Outcome.raisedKeyError) :=
  ⟨rfl, rfl, rfl,
   (C9_amended_resolution_failure _ _ none (fun s => s) "u" "q" none [] false
     (fun _ => true) rfl rfl rfl).2.1⟩

/-- C7 fails on the code: for a fragment that begins with the status marker
but is longer than it, the text message sent is the fixed marker string, not
the fragment itself. -/
theorem C7_counterexample :
    processEvent "q" (fun _ => true) initState (StreamEvent.delta "开始起卦：乾") =
      ({ initState with messages := [⟨"assistant", "开始起卦：乾"⟩] },
       [Effect.sendText startMarker]) ∧
    startMarker ≠ "开始起卦：乾" :=
  ⟨by decide, by decide⟩

/-- C7 amended: a fragment whose content begins with the fixed status marker
causes one text message containing exactly the marker string (not the full
fragment content) to be sent immediately, the full content is recorded as an
assistant transcript entry, and the fragment contributes nothing to
content_buffer or text_buffer. -/
theorem C7_amended_status_sends_fixed_marker (question : String)
    (editOk : Nat → Bool) (st : LoopState) (c : String)
    (h : statusCond c = true) :
    processEvent question editOk st (StreamEvent.delta c) =
      ({ st with messages := st.messages ++ [⟨"assistant", c⟩] },
       [Effect.sendText startMarker]) := by
  have hi := statusCond_imageCond_false c h
  simp [processEvent, hi, h]

/-- Witness for the amended C7 at the concrete marker fragment. -/
theorem C7_amended_status_sends_fixed_marker_witness :
    statusCond "开始起卦" = true ∧
    processEvent "q" (fun _ => true) initState (StreamEvent.delta "开始起卦") =
      ({ initState with messages := [⟨"assistant", "开始起卦"⟩] },
       [Effect.sendText startMarker]) :=
  ⟨by decide,
   C7_amended_status_sends_fixed_marker "q" (fun _ => true) initState "开始起卦"
     (by decide)⟩

/-- Every effect issued for one event has the loop shape. -/
lemma processEvent_shape (question : String) (editOk : Nat → Bool)
    (st : LoopState) (ev : StreamEvent) :
    ∀ e ∈ (processEvent question editOk st ev).2, loopShape e := by
  intro e he
  cases ev with
  | completed n => simp [processEvent] at he
  | other => simp [processEvent] at he
  | delta c =>
    simp only [processEvent] at he
    split at he
    · simp at he
      subst he
      simp [loopShape]
    · split at he
      · simp at he
        subst he
        simp [loopShape]
      · split at he
        · simp at he
          subst he
          simp only [loopShape]
          exact Or.inr ⟨question, _, rfl⟩
        · split at he
          · simp at he
            subst he
            simp [loopShape]
          · simp at he

/-- Every effect issued by the event loop has the loop shape. -/
lemma runFrom_shape (question : String) (editOk : Nat → Bool) :
    ∀ (events : List StreamEvent) (st : LoopState),
      ∀ e ∈ (runFrom question editOk st events).2, loopShape e := by
  intro events
  induction events with
  | nil =>
    intro st e he
    simp [runFrom] at he
  | cons ev rest ih =>
    intro st e he
    simp only [runFrom, List.mem_append] at he
    rcases he with he | he
    · exact processEvent_shape question editOk st ev e he
    · exact ih _ e he

/-- No string with the question-echo header equals the generic failure
reply: their first characters differ. -/
lemma qHeader_append_ne_failMsg (q s : String) : qHeader q ++ s ≠ failMsg := by
  intro h
  have hd := congrArg (fun t => t.data.head?) h
  simp only [qHeader, failMsg, String.data_append] at hd
  simp only [List.cons_append, List.head?_cons] at hd
  exact absurd hd (by decide)

/-- The generic failure reply is never sent from inside the event loop. -/
lemma failMsg_not_in_loop (question : String) (editOk : Nat → Bool)
    (events : List StreamEvent) (st : LoopState) :
    Effect.sendText failMsg ∉ (runFrom question editOk st events).2 := by
  intro hm
  have hs := runFrom_shape question editOk events st _ hm
  simp only [loopShape] at hs
  rcases hs with hs | ⟨q, s2, hs⟩
  · exact absurd hs (by decide)
  · exact qHeader_append_ne_failMsg q s2 hs.symm

/-- The event loop never calls update_project_messages. -/
lemma updateProj_not_in_loop (question : String) (editOk : Nat → Bool)
    (events : List StreamEvent) (st : LoopState) (p : Nat) (ms : List Msg) :
    Effect.updateProj p ms ∉ (runFrom question editOk st events).2 := by
  intro hm
  exact (runFrom_shape question editOk events st _ hm).elim

/-- The event loop never calls create_project. -/
lemma createProj_not_in_loop (question : String) (editOk : Nat → Bool)
    (events : List StreamEvent) (st : LoopState) (u : Nat) (q2 : String) :
    Effect.createProj u q2 ∉ (runFrom question editOk st events).2 := by
  intro hm
  exact (runFrom_shape question editOk events st _ hm).elim

/-- The event loop never opens another stream. -/
lemma streamCall_not_in_loop (question : String) (editOk : Nat → Bool)
    (events : List StreamEvent) (st : LoopState) (p : Nat) (q2 : String) :
    Effect.streamCall p q2 ∉ (runFrom question editOk st events).2 := by
  intro hm
  exact (runFrom_shape question editOk events st _ hm).elim

/-- Occurrence counting distributes over list append. -/
lemma countEff_append (e : Effect) (a b : List Effect) :
    countEff e (a ++ b) = countEff e a + countEff e b := by
  induction a with
  | nil => simp [countEff]
  | cons x rest ih =>
    rw [List.cons_append]
    show (if x = e then 1 else 0) + countEff e (rest ++ b) = _
    rw [ih]
    show _ = (if x = e then 1 else 0) + countEff e rest + countEff e b
    omega

/-- An absent effect has occurrence count zero. -/
lemma countEff_eq_zero (e : Effect) (l : List Effect) (h : e ∉ l) :
    countEff e l = 0 := by
  induction l with
  | nil => rfl
  | cons x rest ih =>
    simp only [List.mem_cons] at h
    push_neg at h
    simp only [countEff, ih h.2]
    rw [if_neg (fun hx => h.1 hx.symm)]

/-- C8: when the stream raises during consumption, after the project was
created, the handler issues exactly one generic failure reply and never calls
update_project_messages: no partial transcript is persisted for that
question. -/
theorem C8_stream_failure_one_reply_no_update (env : Env) (msgText : String)
    (pid : Nat) (events : List StreamEvent) (editOk : Nat → Bool)
    (ud : UserData) (u : Nat)
    (hw : ud.waiting_for_question = true)
    (hu : env.user = some u)
    (hq : 0 < env.daily_limit - env.used_count) :
    countEff (Effect.sendText failMsg)
      (handle_message env msgText (some pid) events true editOk ud).2.1 = 1 ∧
    ∀ p ms, Effect.updateProj p ms ∉
      (handle_message env msgText (some pid) events true editOk ud).2.1 := by
  have hne : ¬ (env.daily_limit - env.used_count ≤ 0) := not_le.mpr hq
  have heff : (handle_message env msgText (some pid) events true editOk ud).2.1 =
      Effect.createProj u msgText :: Effect.streamCall pid msgText ::
      ((runFrom msgText editOk initState events).2 ++ [Effect.sendText failMsg]) := by
    unfold handle_message initialize_user_data
    rw [hu]
    simp [hw, hne]
  rw [heff]
  constructor
  · simp only [countEff, countEff_append]
    rw [countEff_eq_zero _ _ (failMsg_not_in_loop msgText editOk events initState)]
    simp [countEff]
  · intro p ms hm
    simp only [List.mem_cons, List.mem_append, List.mem_singleton] at hm
    rcases hm with hm | hm | hm | hm
    · exact absurd hm (by simp)
    · exact absurd hm (by simp)
    · exact updateProj_not_in_loop msgText editOk events initState p ms hm
    · exact absurd hm (by simp)

/-- Witness for C8: a concrete raising stream after one delivered fragment. -/
theorem C8_stream_failure_one_reply_no_update_witness :
    (({ waiting_for_question := true } : UserData)).waiting_for_question = true ∧
    (({ user := some 1, daily_limit := 5, used_count := 0, today := "d" } : Env)).user
      = some 1 ∧
    ((0 : Int) < 5 - 0) ∧
    countEff (Effect.sendText failMsg)
      (handle_message { user := some 1, daily_limit := 5, used_count := 0, today := "d" }
        "问" (some 9) [StreamEvent.delta "卦"] true (fun _ => true)
        { waiting_for_question := true }).2.1 = 1 :=
  ⟨rfl, rfl, by decide,
   (C8_stream_failure_one_reply_no_update _ "问" 9 [StreamEvent.delta "卦"]
     (fun _ => true) _ 1 rfl rfl (by decide)).1⟩

/-- The loop effects contain no update call, so filtering for updates is
empty. -/
lemma filter_isUpdate_loop (question : String) (editOk : Nat → Bool)
    (events : List StreamEvent) (st : LoopState) :
    (runFrom question editOk st events).2.filter isUpdate = [] := by
  rw [List.filter_eq_nil_iff]
  intro e he
  have hs := runFrom_shape question editOk events st e he
  cases e with
  | sendText t => simp [isUpdate]
  | sendPhoto u => simp [isUpdate]
  | editMsg t b => simp [isUpdate]
  | createProj u q => exact hs.elim
  | streamCall p q => exact hs.elim
  | updateProj p ms => exact hs.elim

/-- The final flush issues nothing, one failed edit, or one successful edit
followed by the single update call carrying the accumulated transcript with
the final entry appended. -/
lemma finalBlock_cases (pid : Nat) (editOk : Nat → Bool) (st : LoopState) :
    (finalBlock pid editOk st).2 = [] ∨
    (∃ tb, (finalBlock pid editOk st).2 = [Effect.editMsg tb false]) ∨
    ((finalBlock pid editOk st).2 =
       [Effect.editMsg (st.text_buffer ++ st.content_buffer) true,
        Effect.updateProj pid (st.messages ++
          [⟨"assistant", st.text_buffer ++ st.content_buffer⟩])] ∧
     st.message.isSome = true ∧
     (finalBlock pid editOk st).1.messages =
       st.messages ++ [⟨"assistant", st.text_buffer ++ st.content_buffer⟩]) := by
  unfold finalBlock
  split
  · exact Or.inl rfl
  · split
    · exact Or.inl rfl
    · rename_i disp heq
      split
      · right; right
        refine ⟨rfl, ?_, rfl⟩
        rw [heq]
        rfl
      · right; left
        exact ⟨_, rfl⟩

/-- One event can set the streamed message only by issuing the initial text
send. -/
lemma processEvent_message (question : String) (editOk : Nat → Bool)
    (st : LoopState) (ev : StreamEvent)
    (h : (processEvent question editOk st ev).1.message.isSome = true) :
    st.message.isSome = true ∨
    ∃ t, Effect.sendText t ∈ (processEvent question editOk st ev).2 := by
  cases ev with
  | completed n => exact Or.inl h
  | other => exact Or.inl h
  | delta c =>
    by_cases hi : imageCond c = true
    · left
      simpa [processEvent, hi] using h
    · by_cases hs : statusCond c = true
      · left
        simpa [processEvent, hi, hs] using h
      · cases hm : st.message with
        | none =>
          right
          refine ⟨qHeader question ++ (st.content_buffer ++ c), ?_⟩
          simp [processEvent, hi, hs, hm]
        | some disp =>
          left
          rfl

/-- If the event loop ends with a streamed message in hand, either it already
had one or some text send happened during the loop. -/
lemma runFrom_message_send (question : String) (editOk : Nat → Bool) :
    ∀ (events : List StreamEvent) (st : LoopState),
      (runFrom question editOk st events).1.message.isSome = true →
      st.message.isSome = true ∨
      ∃ t, Effect.sendText t ∈ (runFrom question editOk st events).2 := by
  intro events
  induction events with
  | nil =>
    intro st h
    exact Or.inl h
  | cons ev rest ih =>
    intro st h
    have h2 : (runFrom question editOk (processEvent question editOk st ev).1
        rest).1.message.isSome = true := h
    rcases ih _ h2 with h3 | ⟨t, ht⟩
    · rcases processEvent_message question editOk st ev h3 with h4 | ⟨t, ht⟩
      · exact Or.inl h4
      · refine Or.inr ⟨t, ?_⟩
        simp only [runFrom, List.mem_append]
        exact Or.inl ht
    · refine Or.inr ⟨t, ?_⟩
      simp only [runFrom, List.mem_append]
      exact Or.inr ht

/-- C4: for every question taken from the awaiting state, create_project is
called first and the stream call second; update_project_messages is called at
most once, only at stream end (it is the last effect when present, and never
in a raising run), with the full accumulated message list of the run, and only
if at least one text message was sent. -/
theorem C4_project_lifecycle (env : Env) (msgText : String) (pid : Nat)
    (events : List StreamEvent) (streamRaises : Bool) (editOk : Nat → Bool)
    (ud : UserData) (u : Nat)
    (hw : ud.waiting_for_question = true)
    (hu : env.user = some u)
    (hq : 0 < env.daily_limit - env.used_count) :
    (handle_message env msgText (some pid) events streamRaises editOk ud).2.1.head? =
      some (Effect.createProj u msgText) ∧
    (handle_message env msgText (some pid) events streamRaises editOk
      ud).2.1.tail.head? = some (Effect.streamCall pid msgText) ∧
    countUpdates
      (handle_message env msgText (some pid) events streamRaises editOk ud).2.1 ≤ 1 ∧
    (∀ p ms, Effect.updateProj p ms ∈
        (handle_message env msgText (some pid) events streamRaises editOk ud).2.1 →
      streamRaises = false ∧ p = pid ∧
      ms = (finalBlock pid editOk
        (runFrom msgText editOk initState events).1).1.messages ∧
      (handle_message env msgText (some pid) events streamRaises editOk
        ud).2.1.getLast? = some (Effect.updateProj p ms) ∧
      ∃ t, Effect.sendText t ∈
        (handle_message env msgText (some pid) events streamRaises editOk ud).2.1) := by
  have hne : ¬ (env.daily_limit - env.used_count ≤ 0) := not_le.mpr hq
  cases streamRaises with
  | true =>
    have heff : (handle_message env msgText (some pid) events true editOk ud).2.1 =
        Effect.createProj u msgText :: Effect.streamCall pid msgText ::
        ((runFrom msgText editOk initState events).2 ++ [Effect.sendText failMsg]) := by
      unfold handle_message initialize_user_data
      rw [hu]
      simp [hw, hne]
    rw [heff]
    refine ⟨rfl, rfl, ?_, ?_⟩
    · simp [countUpdates, List.filter_append, List.filter_cons, isUpdate,
        filter_isUpdate_loop msgText editOk events initState]
    · intro p ms hm
      exfalso
      simp only [List.mem_cons, List.mem_append, List.mem_singleton] at hm
      rcases hm with hm | hm | hm | hm
      · exact absurd hm (by simp)
      · exact absurd hm (by simp)
      · exact updateProj_not_in_loop msgText editOk events initState p ms hm
      · exact absurd hm (by simp)
  | false =>
    have heff : (handle_message env msgText (some pid) events false editOk ud).2.1 =
        Effect.createProj u msgText :: Effect.streamCall pid msgText ::
        ((runFrom msgText editOk initState events).2 ++
         (finalBlock pid editOk (runFrom msgText editOk initState events).1).2) := by
      unfold handle_message initialize_user_data
      rw [hu]
      simp [hw, hne]
    rcases finalBlock_cases pid editOk (runFrom msgText editOk initState events).1 with
      hF | ⟨tb, hF⟩ | ⟨hF, hSome, hMsgs⟩
    · rw [heff, hF]
      refine ⟨rfl, rfl, ?_, ?_⟩
      · simp [countUpdates, List.filter_append, List.filter_cons, isUpdate,
          filter_isUpdate_loop msgText editOk events initState]
      · intro p ms hm
        exfalso
        simp only [List.mem_cons, List.mem_append, List.not_mem_nil, or_false] at hm
        rcases hm with hm | hm | hm
        · exact absurd hm (by simp)
        · exact absurd hm (by simp)
        · exact updateProj_not_in_loop msgText editOk events initState p ms hm
    · rw [heff, hF]
      refine ⟨rfl, rfl, ?_, ?_⟩
      · simp [countUpdates, List.filter_append, List.filter_cons, isUpdate,
          filter_isUpdate_loop msgText editOk events initState]
      · intro p ms hm
        exfalso
        simp only [List.mem_cons, List.mem_append, List.mem_singleton] at hm
        rcases hm with hm | hm | hm | hm
        · exact absurd hm (by simp)
        · exact absurd hm (by simp)
        · exact updateProj_not_in_loop msgText editOk events initState p ms hm
        · exact absurd hm (by simp)
    · rw [heff, hF]
      refine ⟨rfl, rfl, ?_, ?_⟩
      · simp [countUpdates, List.filter_append, List.filter_cons, isUpdate,
          filter_isUpdate_loop msgText editOk events initState]
      · intro p ms hm
        have hmem : Effect.updateProj p ms =
            Effect.updateProj pid
              ((runFrom msgText editOk initState events).1.messages ++
               [⟨"assistant",
                 (runFrom msgText editOk initState events).1.text_buffer ++
                 (runFrom msgText editOk initState events).1.content_buffer⟩]) := by
          simp only [List.mem_cons, List.mem_append, List.mem_cons,
            List.not_mem_nil, or_false, List.mem_singleton] at hm
          rcases hm with hm | hm | hm | hm | hm
          · exact absurd hm (by simp)
          · exact absurd hm (by simp)
          · exact absurd hm
              (updateProj_not_in_loop msgText editOk events initState p ms)
          · exact absurd hm (by simp)
          · exact hm
        have hp : p = pid := by
          injection hmem
        have hms : ms =
            (runFrom msgText editOk initState events).1.messages ++
            [⟨"assistant",
              (runFrom msgText editOk initState events).1.text_buffer ++
              (runFrom msgText editOk initState events).1.content_buffer⟩] := by
          injection hmem
        refine ⟨rfl, hp, ?_, ?_, ?_⟩
        · rw [hMsgs, hms]
        · rw [← List.cons_append, ← List.cons_append, List.getLast?_append]
          rw [hmem]
          rfl
        · rcases runFrom_message_send msgText editOk events initState hSome with
            h4 | ⟨t, ht⟩
          · simp [initState] at h4
          · refine ⟨t, ?_⟩
            simp only [List.mem_cons, List.mem_append]
            exact Or.inr (Or.inr (Or.inl ht))

/-- Witness for C4: a concrete run where the update call occurs. -/
theorem C4_project_lifecycle_witness :
    (({ waiting_for_question := true } : UserData)).waiting_for_question = true ∧
    (({ user := some 1, daily_limit := 5, used_count := 0, today := "d" } : Env)).user
      = some 1 ∧
    ((0 : Int) < 5 - 0) ∧
    (handle_message { user := some 1, daily_limit := 5, used_count := 0, today := "d" }
      "问" (some 9) [StreamEvent.delta "卦"] false (fun _ => true)
      { waiting_for_question := true }).2.1.head? =
      some (Effect.createProj 1 "问") :=
  ⟨rfl, rfl, by decide,
   (C4_project_lifecycle _ "问" 9 [StreamEvent.delta "卦"] false (fun _ => true) _ 1
     rfl rfl (by decide)).1⟩

/-- A plain fragment splits into its two branch conditions. -/
lemma plainFrag_split (c : String) (h : plainFrag c = true) :
    imageCond c = false ∧ statusCond c = false := by
  simp only [plainFrag, Bool.and_eq_true, Bool.not_eq_true'] at h
  exact h

/-- Processing a plain fragment before the initial send: it is appended to
content_buffer and the initial message is sent with the header. -/
lemma processEvent_plain_none (question : String) (editOk : Nat → Bool)
    (st : LoopState) (c : String)
    (hic : imageCond c = false) (hsc : statusCond c = false)
    (hm : st.message = none) :
    processEvent question editOk st (StreamEvent.delta c) =
      ({ st with
         content_buffer := st.content_buffer ++ c
         message := some (qHeader question ++ (st.content_buffer ++ c))
         text_buffer := qHeader question ++ (st.content_buffer ++ c) },
       [Effect.sendText (qHeader question ++ (st.content_buffer ++ c))]) := by
  simp [processEvent, hic, hsc, hm]

/-- Processing a plain fragment that fills the buffer to the threshold: the
buffer is appended to text_buffer, the marker is normalized, one edit is
attempted and the buffer is cleared. -/
lemma processEvent_plain_flush (question : String) (editOk : Nat → Bool)
    (st : LoopState) (c : String) (disp : String)
    (hic : imageCond c = false) (hsc : statusCond c = false)
    (hm : st.message = some disp)
    (hth : 30 ≤ (st.content_buffer ++ c).length) :
    processEvent question editOk st (StreamEvent.delta c) =
      ({ st with
         content_buffer := ""
         text_buffer := replaceBr (st.text_buffer ++ (st.content_buffer ++ c))
         message := some (if editOk st.editAttempts then
           replaceBr (st.text_buffer ++ (st.content_buffer ++ c)) else disp)
         editAttempts := st.editAttempts + 1 },
       [Effect.editMsg (replaceBr (st.text_buffer ++ (st.content_buffer ++ c)))
          (editOk st.editAttempts)]) := by
  rw [String.length_append] at hth
  simp [processEvent, hic, hsc, hm, BUFFER_SIZE, hth]

/-- Processing a plain fragment below the threshold: it only accumulates. -/
lemma processEvent_plain_noflush (question : String) (editOk : Nat → Bool)
    (st : LoopState) (c : String) (disp : String)
    (hic : imageCond c = false) (hsc : statusCond c = false)
    (hm : st.message = some disp)
    (hth : ¬ 30 ≤ (st.content_buffer ++ c).length) :
    processEvent question editOk st (StreamEvent.delta c) =
      ({ st with content_buffer := st.content_buffer ++ c }, []) := by
  rw [String.length_append] at hth
  simp [processEvent, hic, hsc, hm, BUFFER_SIZE, hth]

/-- Edit counting distributes over append. -/
lemma countEdits_append (a b : List Effect) :
    countEdits (a ++ b) = countEdits a + countEdits b := by
  simp [countEdits, List.filter_append]

/-- A nonempty string has positive length. -/
lemma str_length_pos (s : String) (h : s ≠ "") : 0 < s.length := by
  cases s with
  | mk data =>
    cases data with
    | nil => exact absurd rfl h
    | cons c t => simp [String.length]

/-- Edit-count invariant of the event loop over plain fragments: each
threshold edit consumes at least thirty buffered characters, so thirty times
the number of edits plus the residual buffer never exceeds the buffered
characters plus the characters received. -/
lemma runFrom_edit_inv (question : String) (editOk : Nat → Bool) :
    ∀ (events : List StreamEvent) (st : LoopState),
      (∀ c ∈ deltaContents events, plainFrag c = true) →
      30 * countEdits (runFrom question editOk st events).2 +
        (runFrom question editOk st events).1.content_buffer.length ≤
      st.content_buffer.length + totalLen (deltaContents events) := by
  intro events
  induction events with
  | nil =>
    intro st hp
    simp [runFrom, countEdits, deltaContents, totalLen]
  | cons ev rest ih =>
    intro st hp
    cases ev with
    | completed n =>
      have key := ih st (by
        intro x hx
        exact hp x (by simpa [deltaContents] using hx))
      simpa [runFrom, processEvent, deltaContents] using key
    | other =>
      have key := ih st (by
        intro x hx
        exact hp x (by simpa [deltaContents] using hx))
      simpa [runFrom, processEvent, deltaContents] using key
    | delta c =>
      obtain ⟨hic, hsc⟩ := plainFrag_split c (hp c (by simp [deltaContents]))
      have hp' : ∀ x ∈ deltaContents rest, plainFrag x = true := by
        intro x hx
        exact hp x (by simp [deltaContents, hx])
      cases hm : st.message with
      | none =>
        rw [show runFrom question editOk st (StreamEvent.delta c :: rest) =
            ((runFrom question editOk
               (processEvent question editOk st (StreamEvent.delta c)).1 rest).1,
             (processEvent question editOk st (StreamEvent.delta c)).2 ++
             (runFrom question editOk
               (processEvent question editOk st (StreamEvent.delta c)).1 rest).2)
          from rfl,
          processEvent_plain_none question editOk st c hic hsc hm]
        have key := ih ({ st with
          content_buffer := st.content_buffer ++ c
          message := some (qHeader question ++ (st.content_buffer ++ c))
          text_buffer := qHeader question ++ (st.content_buffer ++ c) }) hp'
        simp only [countEdits_append, deltaContents, totalLen] at key ⊢
        have hl : (st.content_buffer ++ c).length =
            st.content_buffer.length + c.length := String.length_append _ _
        simp only [countEdits, List.filter, isEdit] at key ⊢
        simp at key ⊢
        omega
      | some disp =>
        by_cases hth : 30 ≤ (st.content_buffer ++ c).length
        · rw [show runFrom question editOk st (StreamEvent.delta c :: rest) =
              ((runFrom question editOk
                 (processEvent question editOk st (StreamEvent.delta c)).1 rest).1,
               (processEvent question editOk st (StreamEvent.delta c)).2 ++
               (runFrom question editOk
                 (processEvent question editOk st (StreamEvent.delta c)).1 rest).2)
            from rfl,
            processEvent_plain_flush question editOk st c disp hic hsc hm hth]
          have key := ih ({ st with
            content_buffer := ""
            text_buffer := replaceBr (st.text_buffer ++ (st.content_buffer ++ c))
            message := some (if editOk st.editAttempts then
              replaceBr (st.text_buffer ++ (st.content_buffer ++ c)) else disp)
            editAttempts := st.editAttempts + 1 }) hp'
          have hl : (st.content_buffer ++ c).length =
              st.content_buffer.length + c.length := String.length_append _ _
          simp only [countEdits_append, deltaContents, totalLen] at key ⊢
          simp only [countEdits, List.filter, isEdit] at key ⊢
          simp at key ⊢
          omega
        · rw [show runFrom question editOk st (StreamEvent.delta c :: rest) =
              ((runFrom question editOk
                 (processEvent question editOk st (StreamEvent.delta c)).1 rest).1,
               (processEvent question editOk st (StreamEvent.delta c)).2 ++
               (runFrom question editOk
                 (processEvent question editOk st (StreamEvent.delta c)).1 rest).2)
            from rfl,
            processEvent_plain_noflush question editOk st c disp hic hsc hm hth]
          have key := ih ({ st with content_buffer := st.content_buffer ++ c }) hp'
          have hl : (st.content_buffer ++ c).length =
              st.content_buffer.length + c.length := String.length_append _ _
          simp only [countEdits_append, deltaContents, totalLen] at key ⊢
          simp only [countEdits, List.filter, isEdit] at key ⊢
          simp at key ⊢
          omega

/-- The final flush attempts no edit on an empty residue and at most one
otherwise. -/
lemma finalBlock_edits_le (pid : Nat) (editOk : Nat → Bool) (st : LoopState) :
    countEdits (finalBlock pid editOk st).2 ≤
      if st.content_buffer = "" then 0 else 1 := by
  unfold finalBlock
  split
  · simp [countEdits]
  · split
    · simp [countEdits]
    · split
      · simp [countEdits, List.filter, isEdit]
      · simp [countEdits, List.filter, isEdit]

/-- With at least one plain fragment delivered before any send, the loop
issues the initial text send. -/
lemma runFrom_send_of_delta (question : String) (editOk : Nat → Bool) :
    ∀ (events : List StreamEvent) (st : LoopState),
      st.message = none →
      deltaContents events ≠ [] →
      (∀ c ∈ deltaContents events, plainFrag c = true) →
      ∃ t, Effect.sendText t ∈ (runFrom question editOk st events).2 := by
  intro events
  induction events with
  | nil =>
    intro st _ hne _
    simp [deltaContents] at hne
  | cons ev rest ih =>
    intro st hm hne hp
    cases ev with
    | delta c =>
      obtain ⟨hic, hsc⟩ := plainFrag_split c (hp c (by simp [deltaContents]))
      refine ⟨qHeader question ++ (st.content_buffer ++ c), ?_⟩
      rw [show runFrom question editOk st (StreamEvent.delta c :: rest) =
          ((runFrom question editOk
             (processEvent question editOk st (StreamEvent.delta c)).1 rest).1,
           (processEvent question editOk st (StreamEvent.delta c)).2 ++
           (runFrom question editOk
             (processEvent question editOk st (StreamEvent.delta c)).1 rest).2)
        from rfl,
        processEvent_plain_none question editOk st c hic hsc hm]
      simp
    | completed n =>
      obtain ⟨t, ht⟩ := ih st hm (by simpa [deltaContents] using hne) (by
        intro x hx
        exact hp x (by simpa [deltaContents] using hx))
      refine ⟨t, ?_⟩
      simpa [runFrom, processEvent] using ht
    | other =>
      obtain ⟨t, ht⟩ := ih st hm (by simpa [deltaContents] using hne) (by
        intro x hx
        exact hp x (by simpa [deltaContents] using hx))
      refine ⟨t, ?_⟩
      simpa [runFrom, processEvent] using ht

/-- C6 fails on the code: a single plain fragment of thirty-one characters
yields one edit operation (only the final flush), not the two the ceiling
formula predicts, because the first fragment is left in content_buffer after
the initial send and no later fragment arrives to trigger a threshold edit. -/
theorem C6_counterexample :
    countEdits (streamEffects 0 "q" (fun _ => true)
      [StreamEvent.delta "abcdefghijklmnopqrstuvwxyz01234"]) = 1 ∧
    totalLen (deltaContents
      [StreamEvent.delta "abcdefghijklmnopqrstuvwxyz01234"]) = 31 ∧
    (31 + 29) / 30 = 2 ∧ (1 : Nat) ≠ 2 :=
  ⟨by decide, by decide, by decide, by decide⟩

/-- C6 amended: for a stream of plain fragments the number of edit operations
is at most the ceiling of the total fragment length over the threshold of
thirty (the exact ceiling is not always reached, because the first fragment
is consumed only by the final flush unless later arrivals push the buffer to
the threshold), and when at least one fragment arrives at least one outbound
operation, the initial send, is issued. -/
theorem C6_amended_edit_count_bound (pid : Nat) (question : String)
    (editOk : Nat → Bool) (events : List StreamEvent)
    (hp : ∀ c ∈ deltaContents events, plainFrag c = true) :
    countEdits (streamEffects pid question editOk events) ≤
      (totalLen (deltaContents events) + 29) / 30 ∧
    (deltaContents events ≠ [] →
      ∃ t, Effect.sendText t ∈ streamEffects pid question editOk events) := by
  constructor
  · have hinv := runFrom_edit_inv question editOk events initState hp
    have hfin := finalBlock_edits_le pid editOk
      (runFrom question editOk initState events).1
    have hinv2 : 30 * countEdits (runFrom question editOk initState events).2 +
        (runFrom question editOk initState events).1.content_buffer.length ≤
        0 + totalLen (deltaContents events) := hinv
    rw [streamEffects, countEdits_append]
    rw [Nat.le_div_iff_mul_le (by norm_num)]
    by_cases hcb : (runFrom question editOk initState events).1.content_buffer = ""
    · rw [if_pos hcb] at hfin
      have h0 : (runFrom question editOk
          initState events).1.content_buffer.length = 0 := by
        rw [hcb]
        rfl
      omega
    · rw [if_neg hcb] at hfin
      have h1 := str_length_pos _ hcb
      omega
  · intro hne
    obtain ⟨t, ht⟩ := runFrom_send_of_delta question editOk events initState rfl hne hp
    refine ⟨t, ?_⟩
    rw [streamEffects]
    exact List.mem_append_left _ ht

/-- Witness for the amended C6 at a concrete two-fragment stream. -/
theorem C6_amended_edit_count_bound_witness :
    (∀ c ∈ deltaContents [StreamEvent.delta "a", StreamEvent.delta "卦象为乾"],
      plainFrag c = true) ∧
    countEdits (streamEffects 0 "q" (fun _ => true)
      [StreamEvent.delta "a", StreamEvent.delta "卦象为乾"]) ≤
      (totalLen (deltaContents
        [StreamEvent.delta "a", StreamEvent.delta "卦象为乾"]) + 29) / 30 :=
  ⟨by decide,
   (C6_amended_edit_count_bound 0 "q" (fun _ => true)
     [StreamEvent.delta "a", StreamEvent.delta "卦象为乾"] (by decide)).1⟩

/-- A marker occurrence in a prefix stays an occurrence after appending. -/
lemma hasBr_append_left (xs ys : List Char) (h : hasBr xs = true) :
    hasBr (xs ++ ys) = true := by
  induction xs with
  | nil => simp [hasBr] at h
  | cons c rest ih =>
    rw [hasBr, Bool.or_eq_true] at h
    rw [List.cons_append, hasBr, Bool.or_eq_true]
    rcases h with h | h
    · left
      have hp := List.isPrefixOf_iff_prefix.mp h
      exact List.isPrefixOf_iff_prefix.mpr (hp.trans ⟨ys, rfl⟩)
    · right
      exact ih h

/-- If an appended list has no marker occurrence, neither has its prefix. -/
lemma hasBr_prefix_false (xs ys : List Char) (h : hasBr (xs ++ ys) = false) :
    hasBr xs = false := by
  cases hx : hasBr xs with
  | false => rfl
  | true =>
    rw [hasBr_append_left xs ys hx] at h
    exact Bool.noConfusion h

/-- With no marker occurrence the fueled replacement is the identity. -/
lemma replaceBrAux_of_hasBr_false :
    ∀ (fuel : Nat) (l : List Char), hasBr l = false → replaceBrAux fuel l = l := by
  intro fuel
  induction fuel with
  | zero =>
    intro l h
    cases l with
    | nil => rfl
    | cons c rest => rfl
  | succ fuel ih =>
    intro l h
    cases l with
    | nil => rfl
    | cons c rest =>
      rw [hasBr, Bool.or_eq_false_iff] at h
      rw [replaceBrAux, if_neg (by simp [h.1]), ih rest h.2]

/-- With no marker occurrence the replace is the identity. -/
lemma replaceBr_id (s : String) (h : hasBr s.data = false) : replaceBr s = s := by
  cases s with
  | mk data =>
    unfold replaceBr replaceBrList
    rw [replaceBrAux_of_hasBr_false _ _ h]

/-- Processing a plain threshold fragment when the edit succeeds and the
assembled text has no marker occurrence: the edit displays text_buffer plus
the whole buffer, both unchanged by the replacement. -/
lemma processEvent_plain_flush_ok (question : String) (editOk : Nat → Bool)
    (st : LoopState) (c : String)
    (hic : imageCond c = false) (hsc : statusCond c = false)
    (hm : st.message = some st.text_buffer)
    (hth : 30 ≤ (st.content_buffer ++ c).length)
    (hok : editOk st.editAttempts = true)
    (hbr : hasBr ((st.text_buffer ++ (st.content_buffer ++ c)).data) = false) :
    processEvent question editOk st (StreamEvent.delta c) =
      ({ st with
         content_buffer := ""
         text_buffer := st.text_buffer ++ (st.content_buffer ++ c)
         message := some (st.text_buffer ++ (st.content_buffer ++ c))
         editAttempts := st.editAttempts + 1 },
       [Effect.editMsg (st.text_buffer ++ (st.content_buffer ++ c)) true]) := by
  rw [processEvent_plain_flush question editOk st c st.text_buffer hic hsc hm hth,
      replaceBr_id _ hbr, hok]
  simp

/-- Text invariant of the event loop after the initial send: over plain
fragments, with all edits succeeding and no line-break marker anywhere in the
text still to be assembled, the displayed text always equals text_buffer, and
text_buffer plus content_buffer accumulates exactly the incoming fragments. -/
lemma runFrom_text_inv (question : String) (editOk : Nat → Bool)
    (hok : ∀ n, editOk n = true) :
    ∀ (events : List StreamEvent) (st : LoopState),
      (∀ c ∈ deltaContents events, plainFrag c = true) →
      st.message = some st.text_buffer →
      hasBr ((st.text_buffer ++ st.content_buffer ++
        concatS (deltaContents events)).data) = false →
      (runFrom question editOk st events).1.message =
        some (runFrom question editOk st events).1.text_buffer ∧
      (runFrom question editOk st events).1.text_buffer ++
        (runFrom question editOk st events).1.content_buffer =
      st.text_buffer ++ st.content_buffer ++ concatS (deltaContents events) := by
  intro events
  induction events with
  | nil =>
    intro st hp hm hbr
    refine ⟨hm, ?_⟩
    show st.text_buffer ++ st.content_buffer =
      st.text_buffer ++ st.content_buffer ++ concatS (deltaContents [])
    rw [show concatS (deltaContents []) = "" from rfl, String.append_empty]
  | cons ev rest ih =>
    intro st hp hm hbr
    cases ev with
    | completed n =>
      have key := ih st (fun x hx => hp x (by simpa [deltaContents] using hx)) hm
        (by simpa [deltaContents] using hbr)
      refine ⟨key.1, ?_⟩
      rw [show concatS (deltaContents (StreamEvent.completed n :: rest)) =
          concatS (deltaContents rest) from rfl]
      exact key.2
    | other =>
      have key := ih st (fun x hx => hp x (by simpa [deltaContents] using hx)) hm
        (by simpa [deltaContents] using hbr)
      refine ⟨key.1, ?_⟩
      rw [show concatS (deltaContents (StreamEvent.other :: rest)) =
          concatS (deltaContents rest) from rfl]
      exact key.2
    | delta c =>
      obtain ⟨hic, hsc⟩ := plainFrag_split c (hp c (by simp [deltaContents]))
      have hp' : ∀ x ∈ deltaContents rest, plainFrag x = true :=
        fun x hx => hp x (by simp [deltaContents, hx])
      by_cases hth : 30 ≤ (st.content_buffer ++ c).length
      · have hbr1 : hasBr ((st.text_buffer ++
            (st.content_buffer ++ c)).data) = false := by
          have hbr' := hbr
          rw [show st.text_buffer ++ st.content_buffer ++
              concatS (deltaContents (StreamEvent.delta c :: rest)) =
              (st.text_buffer ++ (st.content_buffer ++ c)) ++
              concatS (deltaContents rest) by
            simp [deltaContents, concatS, String.append_assoc],
            String.data_append] at hbr'
          exact hasBr_prefix_false _ _ hbr'
        rw [show runFrom question editOk st (StreamEvent.delta c :: rest) =
            ((runFrom question editOk
               (processEvent question editOk st (StreamEvent.delta c)).1 rest).1,
             (processEvent question editOk st (StreamEvent.delta c)).2 ++
             (runFrom question editOk
               (processEvent question editOk st (StreamEvent.delta c)).1 rest).2)
          from rfl,
          processEvent_plain_flush_ok question editOk st c hic hsc hm hth
            (hok st.editAttempts) hbr1]
        have key := ih ({ st with
            content_buffer := ""
            text_buffer := st.text_buffer ++ (st.content_buffer ++ c)
            message := some (st.text_buffer ++ (st.content_buffer ++ c))
            editAttempts := st.editAttempts + 1 })
          hp' rfl
          (by
            show hasBr (((st.text_buffer ++ (st.content_buffer ++ c)) ++ "" ++
              concatS (deltaContents rest)).data) = false
            rw [show (st.text_buffer ++ (st.content_buffer ++ c)) ++ "" ++
                concatS (deltaContents rest) =
                st.text_buffer ++ st.content_buffer ++
                concatS (deltaContents (StreamEvent.delta c :: rest)) by
              simp [deltaContents, concatS, String.append_assoc,
                String.append_empty]]
            exact hbr)
        refine ⟨key.1, ?_⟩
        rw [key.2]
        simp [deltaContents, concatS, String.append_assoc, String.append_empty]
      · rw [show runFrom question editOk st (StreamEvent.delta c :: rest) =
            ((runFrom question editOk
               (processEvent question editOk st (StreamEvent.delta c)).1 rest).1,
             (processEvent question editOk st (StreamEvent.delta c)).2 ++
             (runFrom question editOk
               (processEvent question editOk st (StreamEvent.delta c)).1 rest).2)
          from rfl,
          processEvent_plain_noflush question editOk st c st.text_buffer hic hsc
            hm hth]
        have key := ih ({ st with content_buffer := st.content_buffer ++ c })
          hp' hm
          (by
            show hasBr ((st.text_buffer ++ (st.content_buffer ++ c) ++
              concatS (deltaContents rest)).data) = false
            rw [show st.text_buffer ++ (st.content_buffer ++ c) ++
                concatS (deltaContents rest) =
                st.text_buffer ++ st.content_buffer ++
                concatS (deltaContents (StreamEvent.delta c :: rest)) by
              simp [deltaContents, concatS, String.append_assoc]]
            exact hbr)
        refine ⟨key.1, ?_⟩
        rw [key.2]
        simp [deltaContents, concatS, String.append_assoc]

/-- From the initial empty loop state, a stream whose plain fragments are f
then ds leaves the displayed text equal to text_buffer, and text_buffer plus
content_buffer equal to the header followed by f twice and the rest: the
first fragment stays in content_buffer after the initial send and is
accumulated again. -/
lemma runFrom_display (question : String) (editOk : Nat → Bool)
    (hok : ∀ n, editOk n = true) :
    ∀ (events : List StreamEvent) (st : LoopState) (f : String) (ds : List String),
      st.message = none → st.text_buffer = "" → st.content_buffer = "" →
      deltaContents events = f :: ds →
      (∀ c ∈ deltaContents events, plainFrag c = true) →
      hasBr (((qHeader question ++ f) ++ (f ++ concatS ds)).data) = false →
      (runFrom question editOk st events).1.message =
        some (runFrom question editOk st events).1.text_buffer ∧
      (runFrom question editOk st events).1.text_buffer ++
        (runFrom question editOk st events).1.content_buffer =
      (qHeader question ++ f) ++ (f ++ concatS ds) := by
  intro events
  induction events with
  | nil =>
    intro st f ds _ _ _ hd _ _
    simp [deltaContents] at hd
  | cons ev rest ih =>
    intro st f ds hm htb hcb hd hp hbr
    cases ev with
    | completed n =>
      exact ih st f ds hm htb hcb (by simpa [deltaContents] using hd)
        (fun x hx => hp x (by simpa [deltaContents] using hx)) hbr
    | other =>
      exact ih st f ds hm htb hcb (by simpa [deltaContents] using hd)
        (fun x hx => hp x (by simpa [deltaContents] using hx)) hbr
    | delta c =>
      have hd2 : c = f ∧ deltaContents rest = ds := by
        simpa [deltaContents] using hd
      obtain ⟨hcf, hds⟩ := hd2
      subst hcf
      subst hds
      obtain ⟨hic, hsc⟩ := plainFrag_split c (hp c (by simp [deltaContents]))
      have hp' : ∀ x ∈ deltaContents rest, plainFrag x = true :=
        fun x hx => hp x (by simp [deltaContents, hx])
      rw [show runFrom question editOk st (StreamEvent.delta c :: rest) =
          ((runFrom question editOk
             (processEvent question editOk st (StreamEvent.delta c)).1 rest).1,
           (processEvent question editOk st (StreamEvent.delta c)).2 ++
           (runFrom question editOk
             (processEvent question editOk st (StreamEvent.delta c)).1 rest).2)
        from rfl,
        processEvent_plain_none question editOk st c hic hsc hm]
      have key := runFrom_text_inv question editOk hok rest
        ({ st with
           content_buffer := st.content_buffer ++ c
           message := some (qHeader question ++ (st.content_buffer ++ c))
           text_buffer := qHeader question ++ (st.content_buffer ++ c) })
        hp' rfl
        (by
          show hasBr (((qHeader question ++ (st.content_buffer ++ c)) ++
            (st.content_buffer ++ c) ++ concatS (deltaContents rest)).data) = false
          rw [hcb]
          rw [show (qHeader question ++ ("" ++ c)) ++ ("" ++ c) ++
              concatS (deltaContents rest) =
              (qHeader question ++ c) ++ (c ++ concatS (deltaContents rest)) by
            simp [String.append_assoc, String.empty_append]]
          exact hbr)
      refine ⟨key.1, ?_⟩
      rw [key.2, hcb]
      simp [String.append_assoc, String.empty_append]

/-- C3 fails on the code: for the question q and the single plain fragment ab
the final displayed text carries the fixed header and the fragment twice,
while the claim predicts the bare fragment concatenation (which the
replacement leaves unchanged here). -/
theorem C3_counterexample :
    finalDisplayed 0 "q" (fun _ => true) [StreamEvent.delta "ab"] =
      some "您所问的事：q

卦象解析：
abab" ∧
    replaceBr "ab" = "ab" ∧
    ("您所问的事：q

卦象解析：
abab" : String) ≠ "ab" :=
  ⟨by decide, by decide, by decide⟩

/-- C3 amended: for a stream of plain fragments f then ds with every edit
succeeding and no line-break marker in the assembled text, the final
displayed text is the fixed question header followed by f and then by all
fragments again (so f appears twice: it stays in content_buffer after the
initial send); marker replacement applies only to threshold-flushed portions,
so markers reaching the stream-end flush would survive, whence the marker-free
restriction for this closed form. -/
theorem C3_amended_final_text (pid : Nat) (question : String)
    (editOk : Nat → Bool) (events : List StreamEvent) (f : String)
    (ds : List String)
    (hok : ∀ n, editOk n = true)
    (hd : deltaContents events = f :: ds)
    (hp : ∀ c ∈ deltaContents events, plainFrag c = true)
    (hbr : hasBr (((qHeader question ++ f) ++ (f ++ concatS ds)).data) = false) :
    finalDisplayed pid question editOk events =
      some ((qHeader question ++ f) ++ (f ++ concatS ds)) := by
  obtain ⟨h1, h2⟩ := runFrom_display question editOk hok events initState f ds
    rfl rfl rfl hd hp hbr
  rw [finalDisplayed]
  by_cases hcb : (runFrom question editOk initState events).1.content_buffer = ""
  · have hfb : finalBlock pid editOk (runFrom question editOk initState events).1 =
        ((runFrom question editOk initState events).1, []) := by
      unfold finalBlock
      rw [if_pos hcb]
    rw [hfb, h1]
    rw [show (runFrom question editOk initState events).1.text_buffer =
        (qHeader question ++ f) ++ (f ++ concatS ds) by
      rw [← h2, hcb, String.append_empty]]
  · have hfb : (finalBlock pid editOk
        (runFrom question editOk initState events).1).1.message =
        some ((runFrom question editOk initState events).1.text_buffer ++
          (runFrom question editOk initState events).1.content_buffer) := by
      unfold finalBlock
      rw [if_neg hcb, h1]
      simp [hok (runFrom question editOk initState events).1.editAttempts]
    rw [hfb, h2]

/-- Witness for the amended C3 at a concrete two-fragment stream. -/
theorem C3_amended_final_text_witness :
    deltaContents [StreamEvent.delta "ab", StreamEvent.delta "cd"] =
      "ab" :: ["cd"] ∧
    finalDisplayed 0 "q" (fun _ => true)
      [StreamEvent.delta "ab", StreamEvent.delta "cd"] =
      some ((qHeader "q" ++ "ab") ++ ("ab" ++ concatS ["cd"])) :=
  ⟨by decide,
   C3_amended_final_text 0 "q" (fun _ => true)
     [StreamEvent.delta "ab", StreamEvent.delta "cd"] "ab" ["cd"] (fun _ => rfl)
     (by decide) (by decide) (by decide)⟩

/-- A separator-free list is split into a single piece. -/
lemma pySplitAux_nosep :
    ∀ (fuel : Nat) (l : List Char), l.length ≤ fuel → hasSep l = false →
      pySplitAux fuel l = [l] := by
  intro fuel
  induction fuel with
  | zero =>
    intro l hl h
    cases l with
    | nil => rfl
    | cons c rest => simp at hl
  | succ fuel ih =>
    intro l hl h
    cases l with
    | nil => rfl
    | cons c rest =>
      rw [hasSep, Bool.or_eq_false_iff] at h
      rw [pySplitAux, if_neg (by simp [h.1]),
        ih rest (by simp at hl; omega) h.2]
      rfl

/-- Splitting a list with exactly one separator occurrence yields the two
surrounding pieces. -/
lemma pySplitAux_decomp :
    ∀ (a : List Char) (fuel : Nat) (b : List Char),
      (a ++ imgSep ++ b).length ≤ fuel →
      hasSep a = false → hasSep b = false →
      pySplitAux fuel (a ++ imgSep ++ b) = [a, b] := by
  intro a
  induction a with
  | nil =>
    intro fuel b hl ha hb
    cases fuel with
    | zero => simp [imgSep] at hl
    | succ fuel =>
      rw [show ([] : List Char) ++ imgSep ++ b = ']' :: '(' :: b from rfl]
      rw [pySplitAux, if_pos (by simp [imgSep, List.isPrefixOf])]
      rw [show (('(' :: b).drop 1) = b from rfl]
      rw [pySplitAux_nosep fuel b (by simp [imgSep] at hl; omega) hb]
  | cons c a' ih =>
    intro fuel b hl ha hb
    cases fuel with
    | zero => simp at hl
    | succ fuel =>
      rw [hasSep, Bool.or_eq_false_iff] at ha
      rw [show (c :: a') ++ imgSep ++ b = c :: (a' ++ imgSep ++ b) from rfl]
      have hpre : imgSep.isPrefixOf (c :: (a' ++ imgSep ++ b)) = false := by
        cases a' with
        | nil => simp [imgSep, List.isPrefixOf]
        | cons c2 a'' =>
          have h1 := ha.1
          simp only [imgSep, List.isPrefixOf, List.cons_append] at h1 ⊢
          simpa using h1
      rw [pySplitAux, if_neg (by rw [hpre]; simp),
        ih fuel b (by simp at hl ⊢; omega) ha.2 hb]
      rfl

/-- The characters after the first separator of a single-occurrence list are
exactly the second piece. -/
lemma afterFirstSep_decomp :
    ∀ (a b : List Char), hasSep a = false →
      afterFirstSep (a ++ imgSep ++ b) = b := by
  intro a
  induction a with
  | nil =>
    intro b ha
    rw [show ([] : List Char) ++ imgSep ++ b = ']' :: '(' :: b from rfl]
    rw [afterFirstSep, if_pos (by simp [imgSep, List.isPrefixOf])]
    rfl
  | cons c a' ih =>
    intro b ha
    rw [hasSep, Bool.or_eq_false_iff] at ha
    rw [show (c :: a') ++ imgSep ++ b = c :: (a' ++ imgSep ++ b) from rfl]
    have hpre : imgSep.isPrefixOf (c :: (a' ++ imgSep ++ b)) = false := by
      cases a' with
      | nil => simp [imgSep, List.isPrefixOf]
      | cons c2 a'' =>
        have h1 := ha.1
        simp only [imgSep, List.isPrefixOf, List.cons_append] at h1 ⊢
        simpa using h1
    rw [afterFirstSep, if_neg (by rw [hpre]; simp)]
    exact ih b ha.2

/-- Split of a list in which the separator occurs exactly once. -/
lemma pySplitSep_single (a b : List Char) (ha : hasSep a = false)
    (hb : hasSep b = false) :
    pySplitSep (a ++ imgSep ++ b) = [a, b] := by
  unfold pySplitSep
  exact pySplitAux_decomp a _ b le_rfl ha hb

/-- C5 fails on the code: for a fragment with two separator occurrences the
photo send carries the empty URL extracted from the middle split piece, while
the substring between the first separator and the trailing close parenthesis
is nonempty. -/
theorem C5_counterexample :
    (processEvent "q" (fun _ => true) initState
       (StreamEvent.delta "![a](u](v)")).2 = [Effect.sendPhoto ""] ∧
    specImgUrl "![a](u](v)" = "u](v" ∧
    ("" : String) ≠ "u](v" :=
  ⟨by decide, by decide, by decide⟩

/-- Splitting a list that begins with a separator-free piece followed by a
separator: the head piece comes off and the remainder is split with enough
remaining fuel. -/
lemma pySplitAux_first_piece :
    ∀ (a : List Char) (fuel : Nat) (b : List Char),
      (a ++ imgSep ++ b).length ≤ fuel → hasSep a = false →
      ∃ fuel2, b.length ≤ fuel2 ∧
        pySplitAux fuel (a ++ imgSep ++ b) = a :: pySplitAux fuel2 b := by
  intro a
  induction a with
  | nil =>
    intro fuel b hl ha
    cases fuel with
    | zero => simp [imgSep] at hl
    | succ fuel =>
      refine ⟨fuel, by simp [imgSep] at hl; omega, ?_⟩
      rw [show ([] : List Char) ++ imgSep ++ b = ']' :: '(' :: b from rfl]
      rw [pySplitAux, if_pos (by simp [imgSep, List.isPrefixOf])]
      rfl
  | cons c a' ih =>
    intro fuel b hl ha
    cases fuel with
    | zero => simp at hl
    | succ fuel =>
      rw [hasSep, Bool.or_eq_false_iff] at ha
      obtain ⟨fuel2, hf2, heq⟩ := ih fuel b (by simp at hl ⊢; omega) ha.2
      refine ⟨fuel2, hf2, ?_⟩
      rw [show (c :: a') ++ imgSep ++ b = c :: (a' ++ imgSep ++ b) from rfl]
      have hpre : imgSep.isPrefixOf (c :: (a' ++ imgSep ++ b)) = false := by
        cases a' with
        | nil => simp [imgSep, List.isPrefixOf]
        | cons c2 a'' =>
          have h1 := ha.1
          simp only [imgSep, List.isPrefixOf, List.cons_append] at h1 ⊢
          simpa using h1
      rw [pySplitAux, if_neg (by rw [hpre]; simp), heq]
      rfl

/-- A list containing the separator decomposes at its first occurrence. -/
lemma hasSep_decomp :
    ∀ (b : List Char), hasSep b = true →
      ∃ b1 b2, b = b1 ++ imgSep ++ b2 ∧ hasSep b1 = false := by
  intro b
  induction b with
  | nil =>
    intro h
    simp [hasSep] at h
  | cons c rest ih =>
    intro h
    rw [hasSep, Bool.or_eq_true] at h
    by_cases hpre : imgSep.isPrefixOf (c :: rest) = true
    · obtain ⟨t, ht⟩ := List.isPrefixOf_iff_prefix.mp hpre
      exact ⟨[], t, by rw [← ht]; rfl, rfl⟩
    · have h2 : hasSep rest = true := by
        rcases h with h | h
        · exact absurd h hpre
        · exact h
      obtain ⟨b1, b2, hb12, hb1⟩ := ih h2
      refine ⟨c :: b1, b2, by rw [hb12]; simp [List.append_assoc], ?_⟩
      rw [hasSep, Bool.or_eq_false_iff]
      refine ⟨?_, hb1⟩
      cases hb : imgSep.isPrefixOf (c :: b1) with
      | false => rfl
      | true =>
        exfalso
        obtain ⟨t, ht⟩ := List.isPrefixOf_iff_prefix.mp hb
        rw [show imgSep ++ t = ']' :: '(' :: t from rfl] at ht
        injection ht with hc1 hc2
        apply hpre
        subst hc1
        rw [hb12, ← hc2]
        simp [imgSep, List.isPrefixOf]

/-- With a second separator occurrence the extracted URL and the spec URL
differ: the code truncates the middle split piece, while the spec substring
runs on to the trailing parenthesis, so the two have different lengths. -/
lemma imgUrl_ne_of_two (c : String) (a b : List Char)
    (hdecomp : c.data = a ++ imgSep ++ b)
    (ha : hasSep a = false) (hb : hasSep b = true) :
    imgUrlOf c ≠ specImgUrl c := by
  obtain ⟨b1, b2, hb12, hb1⟩ := hasSep_decomp b hb
  have hurl : imgUrlOf c = String.mk (b1.dropLast) := by
    unfold imgUrlOf pySplitSep
    rw [hdecomp]
    obtain ⟨fuel2, hf2, heq⟩ := pySplitAux_first_piece a _ b le_rfl ha
    rw [heq, hb12]
    obtain ⟨fuel3, hf3, heq2⟩ := pySplitAux_first_piece b1 fuel2 b2
      (by rw [← hb12]; exact hf2) hb1
    rw [heq2]
    rfl
  have hspec : specImgUrl c = String.mk (b.dropLast) := by
    unfold specImgUrl
    rw [hdecomp, afterFirstSep_decomp a b ha]
  have hblen : b.length = b1.length + 2 + b2.length := by
    rw [hb12]
    simp [imgSep]
    omega
  rw [hurl, hspec]
  intro hEq
  have hdata : b1.dropLast = b.dropLast := congrArg String.data hEq
  have hlen := congrArg List.length hdata
  rw [List.length_dropLast, List.length_dropLast] at hlen
  omega

/-- C5 amended: every fragment that starts with the image opener, contains
the separator and ends with a close parenthesis yields exactly one photo-send
operation whose URL is the second piece of the separator split with its final
character removed, records an assistant transcript entry with the original
content, and never touches the buffers; writing the fragment as a separator
between a separator-free head and a tail, that URL equals the substring
between the separator and the trailing close parenthesis exactly when the
tail holds no further separator occurrence, and differs from it whenever one
does. -/
theorem C5_amended_image_photo (question : String) (editOk : Nat → Bool)
    (st : LoopState) (c : String)
    (himg : imageCond c = true) :
    processEvent question editOk st (StreamEvent.delta c) =
      ({ st with messages := st.messages ++ [⟨"assistant", c⟩] },
       [Effect.sendPhoto (imgUrlOf c)]) ∧
    (∀ a b, c.data = a ++ imgSep ++ b → hasSep a = false →
      (hasSep b = false → imgUrlOf c = specImgUrl c) ∧
      (hasSep b = true → imgUrlOf c ≠ specImgUrl c)) := by
  refine ⟨by simp [processEvent, himg], ?_⟩
  intro a b hdecomp ha
  constructor
  · intro hb
    unfold imgUrlOf specImgUrl
    rw [hdecomp, pySplitSep_single a b ha hb, afterFirstSep_decomp a b ha]
    rfl
  · intro hb
    exact imgUrl_ne_of_two c a b hdecomp ha hb

/-- Witness for the amended C5 at a concrete image fragment. -/
theorem C5_amended_image_photo_witness :
    imageCond "![a](http://x)" = true ∧
    processEvent "q" (fun _ => true) initState
      (StreamEvent.delta "![a](http://x)") =
      ({ initState with messages := [⟨"assistant", "![a](http://x)"⟩] },
       [Effect.sendPhoto (imgUrlOf "![a](http://x)")]) :=
  ⟨by decide,
   (C5_amended_image_photo "q" (fun _ => true) initState "![a](http://x)"
     (by decide)).1⟩

end Liuyao
